import Mathlib

/-!
Verification development for the country-listing repository.

The development shallowly embeds the three pieces of logic of the
repository:

* the import command `update_country_listing` (URL validation, response
  handling, and the transactional upsert loop `_process_countries_data`);
* the aggregation view `stats`;
* the serialized `top_level_domains` property of the `Country` model.

The relational store is modelled as explicit lists of rows; Django ORM
calls (`get_or_create`, `update_or_create`) are modelled as functions on
that store that may fail the way the ORM raises
(`MultipleObjectsReturned`, NOT NULL `IntegrityError`).  Python `dict`
access is modelled with `Option`: `d["k"]` raising `KeyError` becomes an
error value, `d.get("k", default)` becomes `Option.getD`.
-/

/-- A row of the `Region` table (`models.py`): a primary key and a
`name` column.  The schema does not declare `name` unique, so the store
may in principle hold several rows with one name. -/
structure RegionRow where
  id : Nat
  name : String
deriving DecidableEq

/-- A row of the `Country` table (`models.py`).  `regionId` is the
foreign key to `Region`; `capital` and `top_level_domains_json` are the
two nullable columns the importer never touches. -/
@[ext]
structure CountryRow where
  name : String
  alpha2Code : String
  alpha3Code : String
  population : Int
  regionId : Nat
  capital : Option String
  top_level_domains_json : Option String
deriving DecidableEq

/-- The relational store: the two tables plus the next fresh `Region`
primary key. -/
@[ext]
structure Store where
  regions : List RegionRow
  countries : List CountryRow
  nextRegionId : Nat
deriving DecidableEq

/-- One element of the decoded JSON batch, restricted to the five keys
the importer reads.  `none` means the key is absent from the object.
`population` is `Option (Option Int)`: absent, or present with JSON
`null`, or present with an integer — the shapes claim C5 is about. -/
structure Elem where
  name : Option String
  alpha2Code : Option String
  alpha3Code : Option String
  population : Option (Option Int)
  region : Option String
deriving DecidableEq

/-- Exceptions that can escape one iteration of the upsert loop:
`MultipleObjectsReturned` from `get`/`get_or_create`, `KeyError` from
`country_data["k"]`, and the NOT NULL `IntegrityError` from saving a
`null` population. -/
inductive ProcErr where
  | multipleObjectsReturned
  | keyError (field : String)
  | integrityError
deriving DecidableEq

/-- The `Region` rows whose `name` column equals `n`. -/
def regMatches (s : Store) (n : String) : List RegionRow :=
  s.regions.filter (fun r => r.name == n)

/-- The `Country` rows whose `name` column equals `n`. -/
def ctryMatches (s : Store) (n : String) : List CountryRow :=
  s.countries.filter (fun c => c.name == n)

/-- `Region.objects.get_or_create(name=n)` (line 104 of the command):
return the unique existing row, or append a fresh one; raise
`MultipleObjectsReturned` when several rows match.  Returns the updated
store and the primary key of the row. -/
def getOrCreateRegion (s : Store) (n : String) : Except ProcErr (Store × Nat) :=
  match regMatches s n with
  | [] =>
    .ok ({ s with
            regions := s.regions ++ [{ id := s.nextRegionId, name := n }],
            nextRegionId := s.nextRegionId + 1 },
         s.nextRegionId)
  | [r] => .ok (s, r.id)
  | _ => .error .multipleObjectsReturned

/-- The field assignment performed by `update_or_create` on an existing
`Country` row: overwrite exactly `alpha2Code`, `alpha3Code`,
`population` and `region`; every other column is untouched. -/
def applyUpdate (nm a2 a3 : String) (p : Int) (rid : Nat) (c : CountryRow) : CountryRow :=
  if c.name == nm then
    { c with alpha2Code := a2, alpha3Code := a3, population := p, regionId := rid }
  else c

/-- `Country.objects.update_or_create(name=nm, defaults=...)` (lines
109-117): fetch by `name`; with no match insert a new row (nullable
columns default to NULL), with one match overwrite the four default
fields, with several matches raise `MultipleObjectsReturned`.  Saving a
`null` population violates the NOT NULL constraint of
`population = models.IntegerField()` and raises `IntegrityError`. -/
def updateOrCreateCountry (s : Store) (nm a2 a3 : String) (pop : Option Int) (rid : Nat) :
    Except ProcErr Store :=
  match ctryMatches s nm with
  | [] =>
    match pop with
    | none => .error .integrityError
    | some p =>
      .ok { s with
              countries := s.countries ++
                [{ name := nm, alpha2Code := a2, alpha3Code := a3, population := p,
                   regionId := rid, capital := none, top_level_domains_json := none }] }
  | [_] =>
    match pop with
    | none => .error .integrityError
    | some p =>
      .ok { s with countries := s.countries.map (applyUpdate nm a2 a3 p rid) }
  | _ => .error .multipleObjectsReturned

/-- `country_data.get("population", 0)` (line 114): `0` when the key is
absent; when the key is present its value is used as is, so a JSON
`null` stays `null`. -/
def elemPop (e : Elem) : Option Int :=
  match e.population with
  | none => some 0
  | some v => v

/-- The required-field list of line 93. -/
def requiredFields : List String :=
  ["name", "alpha2Code", "alpha3Code", "population", "region"]

/-- `field in country_data` for the five required fields. -/
def hasField (e : Elem) (f : String) : Bool :=
  if f == "name" then e.name.isSome
  else if f == "alpha2Code" then e.alpha2Code.isSome
  else if f == "alpha3Code" then e.alpha3Code.isSome
  else if f == "population" then e.population.isSome
  else if f == "region" then e.region.isSome
  else false

/-- The warnings emitted by the validation loop of lines 94-101: one
"Skipping country: Missing required field" message per missing field.
The loop has no other effect — its `continue` targets the per-field
loop itself, so it never removes the element from the upsert below. -/
def elemWarnings (e : Elem) : List String :=
  requiredFields.filter (fun f => ¬ hasField e f)

/-- One iteration of the loop of lines 92-124, after the (effect-free)
validation loop: look up or create the region named
`country_data.get("region", "")`, then upsert the country.  Reading
`country_data["name"]`, `["alpha2Code"]` or `["alpha3Code"]` raises
`KeyError` when the key is absent; the reads happen in source order,
after the region lookup. -/
def processElem (s : Store) (e : Elem) : Except ProcErr Store :=
  match getOrCreateRegion s (e.region.getD "") with
  | .error err => .error err
  | .ok (s1, rid) =>
    match e.name with
    | none => .error (.keyError "name")
    | some nm =>
      match e.alpha2Code with
      | none => .error (.keyError "alpha2Code")
      | some a2 =>
        match e.alpha3Code with
        | none => .error (.keyError "alpha3Code")
        | some a3 => updateOrCreateCountry s1 nm a2 a3 (elemPop e) rid


/-- The per-element loop of `_process_countries_data`: elements are
processed in document order; the first exception aborts the loop. -/
def processLoop (s : Store) : List Elem → Except ProcErr Store
  | [] => .ok s
  | e :: rest =>
    match processElem s e with
    | .error err => .error err
    | .ok s' => processLoop s' rest

/-- Errors surfaced by the command as `CommandError`, named after the
taxonomy of the specification: `invalidInput` for the URL checks of
lines 41-47, `network` for `requests.RequestException`, `parse` for
`json.JSONDecodeError`, `notAList` for the "API did not return a list
of countries" abort, `processing` for an exception escaping the upsert
loop. -/
inductive CmdErr where
  | invalidInput
  | network
  | parse
  | notAList
  | processing (e : ProcErr)
deriving DecidableEq

/-- `_process_countries_data` (lines 76-134): the loop body runs under
`@transaction.atomic`, and any exception is re-raised as a
`CommandError`, so an error yields no committed store at all. -/
def processCountriesData (s : Store) (data : List Elem) : Except CmdErr Store :=
  match processLoop s data with
  | .error e => .error (.processing e)
  | .ok s' => .ok s'

/-!
URL validation of `handle` (lines 41-47): `urlparse(url)` followed by
`all([parsed_url.scheme, parsed_url.netloc])`.  The scheme/netloc split
below follows CPython `urllib.parse.urlsplit` (3.11 line): strip
leading C0-control-or-space characters, delete every tab, carriage
return and newline, read a scheme before the first colon when it starts
with an ASCII letter and uses only scheme characters, and read the
netloc after a leading `//` up to the next `/`, `?` or `#`.  A netloc
with an unmatched square bracket makes `urlsplit` raise `ValueError`,
which the command also turns into a `CommandError`.
-/

/-- Drop leading characters with code point at most 0x20 (C0 controls
and the space), as `urlsplit` does before parsing. -/
def lstripC0 : List Char → List Char
  | [] => []
  | c :: cs => if c.toNat ≤ 0x20 then lstripC0 cs else c :: cs

/-- Delete every tab, carriage return and newline, as `urlsplit` does
before parsing. -/
def removeUnsafe (l : List Char) : List Char :=
  l.filter (fun c => ¬ (c = '\t' ∨ c = '\r' ∨ c = '\n'))

/-- The characters allowed in a URL scheme. -/
def isSchemeChar (c : Char) : Bool :=
  c.isAlpha ∨ (c.isDigit ∨ (c = '+' ∨ (c = '-' ∨ c = '.')))

/-- Split a (cleaned) URL into its scheme and the remainder: the text
before the first colon counts as the scheme when the colon is not the
first character, the first character is an ASCII letter, and every
character before the colon is a scheme character; the scheme is
lowercased.  Otherwise the scheme is empty and nothing is consumed. -/
def splitScheme (l : List Char) : String × List Char :=
  match l.findIdx? (fun c => c = ':') with
  | none => ("", l)
  | some i =>
    if 0 < i ∧ (l.take i).all isSchemeChar ∧ (l.headD ' ').isAlpha then
      (String.mk ((l.take i).map Char.toLower), l.drop (i + 1))
    else ("", l)

/-- The netloc of the remainder after the scheme: the text after a
leading `//` up to the next `/`, `?` or `#`; empty when the remainder
does not start with `//`. -/
def splitNetloc (l : List Char) : List Char :=
  match l with
  | '/' :: '/' :: r => r.takeWhile (fun c => ¬ (c = '/' ∨ c = '?' ∨ c = '#'))
  | _ => []

/-- The scheme of a URL as the command sees it. -/
def urlScheme (url : String) : String :=
  (splitScheme (removeUnsafe (lstripC0 url.data))).1

/-- The netloc of a URL as the command sees it. -/
def urlNetloc (url : String) : List Char :=
  splitNetloc (splitScheme (removeUnsafe (lstripC0 url.data))).2

/-- `urlsplit` raises `ValueError` on a netloc with an unmatched square
bracket. -/
def bracketedBadly (netloc : List Char) : Bool :=
  (netloc.contains '[' ∧ ¬ netloc.contains ']') ∨
    (netloc.contains ']' ∧ ¬ netloc.contains '[')

/-- The URL check of lines 41-47: parsing must not raise, and both
`parsed_url.scheme` and `parsed_url.netloc` must be non-empty.  Either
failure is surfaced as a `CommandError` before any request is made. -/
def urlOk (url : String) : Bool :=
  ¬ bracketedBadly (urlNetloc url) ∧ (urlScheme url ≠ "" ∧ urlNetloc url ≠ [])

/-- The decoded response body as far as the command inspects it: a JSON
array (whose elements are modelled by `Elem`), or valid JSON whose
top-level value is not a list. -/
inductive ParsedBody where
  | list (elems : List Elem)
  | nonList
deriving DecidableEq

/-- The outcome of `requests.get` + `raise_for_status` + `.json()`:
a transport-level failure (timeout, connection error, non-2xx status),
or a body; `success none` is a body that is not valid JSON, on which
`response.json()` raises. -/
inductive FetchResult where
  | transportError
  | success (body : Option ParsedBody)
deriving DecidableEq

instance {ε α : Type} [DecidableEq ε] [DecidableEq α] : DecidableEq (Except ε α) := fun a b =>
  match a, b with
  | .error x, .error y =>
    if h : x = y then .isTrue (by simp [h]) else .isFalse (by simp [h])
  | .error _, .ok _ => .isFalse (by simp)
  | .ok _, .error _ => .isFalse (by simp)
  | .ok x, .ok y =>
    if h : x = y then .isTrue (by simp [h]) else .isFalse (by simp [h])

/-- The observable result of one run of the command: the committed
store, the outcome, and whether an HTTP request was performed. -/
structure HandleResult where
  store : Store
  outcome : Except CmdErr Unit
  requested : Bool
deriving DecidableEq

/-- `Command.handle` (lines 34-74), with the HTTP fetch supplied as a
parameter: validate the URL (no request on failure), then dispatch on
the fetch outcome; a non-list body aborts before the upsert loop, and a
loop error leaves the store untouched because `_process_countries_data`
is wrapped in `transaction.atomic`. -/
def handle (s : Store) (url : String) (fetch : FetchResult) : HandleResult :=
  if urlOk url then
    match fetch with
    | .transportError => { store := s, outcome := .error .network, requested := true }
    | .success none => { store := s, outcome := .error .parse, requested := true }
    | .success (some .nonList) =>
      { store := s, outcome := .error .notAList, requested := true }
    | .success (some (.list data)) =>
      match processCountriesData s data with
      | .error ce => { store := s, outcome := .error ce, requested := true }
      | .ok s' => { store := s', outcome := .ok (), requested := true }
  else { store := s, outcome := .error .invalidInput, requested := false }

/-!
The aggregation view `stats` (`views.py`): annotate every `Region` with
`Count("countries")` and `Sum("countries__population")`, then replace a
falsy value by `0` (`x or 0`); SQL `Sum` over zero rows is `NULL`,
modelled as `none`.
-/

/-- One entry of the JSON payload of the `stats` view. -/
structure RegionStat where
  name : String
  number_countries : Int
  total_population : Int
deriving DecidableEq

/-- SQL `Sum` of a column over a list of rows: `NULL` on no rows. -/
def sqlSum (l : List Int) : Option Int :=
  match l with
  | [] => none
  | _ => some l.sum

/-- Python `x or 0` on an optional integer (`None or 0 = 0`,
`0 or 0 = 0`, `n or 0 = n` otherwise). -/
def pyOrZero (x : Option Int) : Int :=
  match x with
  | none => 0
  | some v => if v = 0 then 0 else v

/-- Python `n or 0` on an integer. -/
def pyOrZeroInt (n : Int) : Int :=
  if n = 0 then 0 else n

/-- The `Country` rows referencing the region with primary key `rid`. -/
def countriesOf (s : Store) (rid : Nat) : List CountryRow :=
  s.countries.filter (fun c => c.regionId == rid)

/-- The `stats` view (lines 16-28 of `views.py`): one entry per
`Region` row, in table order, with the count and population sum of the
countries referencing it, falsy values coerced to `0`. -/
def stats (s : Store) : List RegionStat :=
  s.regions.map (fun r =>
    { name := r.name,
      number_countries := pyOrZeroInt (Int.ofNat (countriesOf s r.id).length),
      total_population := pyOrZero (sqlSum ((countriesOf s r.id).map (fun c => c.population))) })

/-!
The `top_level_domains` property of `Country` (`models.py`, lines
24-37): the getter returns `[]` when the stored text is falsy (`NULL`
or the empty string) and `json.loads` of it otherwise; the setter
stores `NULL` for `None` and `json.dumps(value)` otherwise.

`json.dumps` of a list of strings is modelled exactly (default
arguments, so `ensure_ascii=True` and item separator `", "`):
characters outside 0x20-0x7e are escaped as `\uXXXX`, astral
characters as a surrogate pair.  `json.loads` is modelled on the
fragment the field ever holds, arrays of strings, following the
strict-mode scanner: JSON whitespace, the string escapes including
surrogate-pair recombination, unescaped control characters rejected.
A decoded lone surrogate (which CPython would keep) has no Lean
counterpart and is mapped to `none`.
-/

/-- The lowercase hex digit for `n % 16`, as `json.dumps` emits. -/
def hexDigitChar (n : Nat) : Char :=
  if n < 10 then Char.ofNat (48 + n) else Char.ofNat (87 + n)

/-- Four lowercase hex digits for `n < 0x10000`. -/
def hex4 (n : Nat) : List Char :=
  [hexDigitChar (n / 4096 % 16), hexDigitChar (n / 256 % 16),
   hexDigitChar (n / 16 % 16), hexDigitChar (n % 16)]

/-- `json.dumps` encoding of one character (the `ensure_ascii`
replacement function): the two-character shortcuts, printable ASCII
as is, `\uXXXX` otherwise, astral characters as a surrogate pair. -/
def encChar (c : Char) : List Char :=
  if c = '\\' then ['\\', '\\']
  else if c = '"' then ['\\', '"']
  else if c = Char.ofNat 8 then ['\\', 'b']
  else if c = Char.ofNat 12 then ['\\', 'f']
  else if c = '\n' then ['\\', 'n']
  else if c = '\r' then ['\\', 'r']
  else if c = '\t' then ['\\', 't']
  else if 0x20 ≤ c.toNat ∧ c.toNat ≤ 0x7e then [c]
  else if c.toNat < 0x10000 then '\\' :: 'u' :: hex4 c.toNat
  else
    ('\\' :: 'u' :: hex4 (0xd800 + (c.toNat - 0x10000) / 0x400)) ++
      ('\\' :: 'u' :: hex4 (0xdc00 + (c.toNat - 0x10000) % 0x400))

/-- `json.dumps` encoding of the characters of a string body. -/
def encChars : List Char → List Char
  | [] => []
  | c :: cs => encChar c ++ encChars cs

/-- `json.dumps` encoding of one string, quotes included. -/
def encString (s : String) : List Char :=
  '"' :: encChars s.data ++ ['"']

/-- The items of `json.dumps` of a list, joined by the default `", "`
separator. -/
def dumpsItems : List String → List Char
  | [] => []
  | [s] => encString s
  | s :: rest => encString s ++ ',' :: ' ' :: dumpsItems rest

/-- `json.dumps` of a list of strings. -/
def dumpsList (v : List String) : String :=
  String.mk ('[' :: dumpsItems v ++ [']'])

/-- Is `c` JSON whitespace (space, tab, newline, carriage return)? -/
def isJsonWs (c : Char) : Bool :=
  c = ' ' ∨ (c = '\t' ∨ (c = '\n' ∨ c = '\r'))

/-- Drop leading JSON whitespace. -/
def skipWs : List Char → List Char
  | [] => []
  | c :: cs => if isJsonWs c then skipWs cs else c :: cs

/-- The value of a hex digit, either case, as `int(s, 16)` accepts. -/
def hexVal (c : Char) : Option Nat :=
  if 48 ≤ c.toNat ∧ c.toNat ≤ 57 then some (c.toNat - 48)
  else if 97 ≤ c.toNat ∧ c.toNat ≤ 102 then some (c.toNat - 87)
  else if 65 ≤ c.toNat ∧ c.toNat ≤ 70 then some (c.toNat - 55)
  else none

/-- The continuation of a `\uXXXX` escape whose value `uni` is a high
surrogate: CPython checks for a following `\uXXXX` low surrogate and
recombines the pair into one code point.  Any other continuation leaves
a lone surrogate in the Python string, which is unrepresentable as a
Lean `Char` and yields `none` here. -/
def decodeU2 (uni : Nat) : List Char → Option (Char × List Char)
  | b1 :: b2 :: e1 :: e2 :: e3 :: e4 :: rest2 =>
    if b1 = '\\' ∧ b2 = 'u' then
      match hexVal e1, hexVal e2, hexVal e3, hexVal e4 with
      | some g1, some g2, some g3, some g4 =>
        let uni2 := ((g1 * 16 + g2) * 16 + g3) * 16 + g4
        if 0xdc00 ≤ uni2 ∧ uni2 ≤ 0xdfff then
          some (Char.ofNat (0x10000 + (uni - 0xd800) * 0x400 + (uni2 - 0xdc00)), rest2)
        else none
      | _, _, _, _ => none
    else none
  | _ => none

/-- Decode the four hex digits of a `\uXXXX` escape, recombining a
surrogate pair through `decodeU2`.  A lone low surrogate would stay in
the Python string; it is unrepresentable as a Lean `Char` and yields
`none` here. -/
def decodeU : List Char → Option (Char × List Char)
  | d1 :: d2 :: d3 :: d4 :: rest =>
    match hexVal d1, hexVal d2, hexVal d3, hexVal d4 with
    | some h1, some h2, some h3, some h4 =>
      let uni := ((h1 * 16 + h2) * 16 + h3) * 16 + h4
      if 0xd800 ≤ uni ∧ uni ≤ 0xdbff then decodeU2 uni rest
      else if 0xdc00 ≤ uni ∧ uni ≤ 0xdfff then none
      else some (Char.ofNat uni, rest)
    | _, _, _, _ => none
  | _ => none

/-- Decode the JSON string escape after a backslash: the named
shortcuts, or `\uXXXX` through `decodeU`.  Returns the decoded
character and the unconsumed input. -/
def decodeEscape : List Char → Option (Char × List Char)
  | [] => none
  | c :: cs =>
    if c = '"' then some ('"', cs)
    else if c = '\\' then some ('\\', cs)
    else if c = '/' then some ('/', cs)
    else if c = 'b' then some (Char.ofNat 8, cs)
    else if c = 'f' then some (Char.ofNat 12, cs)
    else if c = 'n' then some ('\n', cs)
    else if c = 'r' then some ('\r', cs)
    else if c = 't' then some ('\t', cs)
    else if c = 'u' then decodeU cs
    else none

/-- Scan a JSON string body after the opening quote (strict-mode
`scanstring`): ends at the closing quote, decodes escapes, rejects
unescaped control characters.  `fuel` bounds the recursion; each step
consumes at least one character, so any `fuel` above the input length
is enough. -/
def parseStringBody : Nat → List Char → Option (List Char × List Char)
  | 0, _ => none
  | _ + 1, [] => none
  | fuel + 1, c :: cs =>
    if c = '"' then some ([], cs)
    else if c = '\\' then
      match decodeEscape cs with
      | none => none
      | some (d, rest) =>
        match parseStringBody fuel rest with
        | none => none
        | some (content, rest2) => some (d :: content, rest2)
    else if c.toNat < 0x20 then none
    else
      match parseStringBody fuel cs with
      | none => none
      | some (content, rest2) => some (c :: content, rest2)

/-- Scan the items of a non-empty JSON array of strings, the opening
bracket and any whitespace after it already consumed: a string, then
either `]` (end) or `,` and further items, JSON whitespace allowed
around the separators.  `fuel` bounds the recursion; each item consumes
at least one character. -/
def parseItems : Nat → List Char → Option (List String × List Char)
  | 0, _ => none
  | _ + 1, [] => none
  | fuel + 1, c :: cs =>
    if c = '"' then
      match parseStringBody (cs.length + 1) cs with
      | none => none
      | some (content, rest) =>
        match skipWs rest with
        | [] => none
        | d :: rest2 =>
          if d = ']' then some ([String.mk content], rest2)
          else if d = ',' then
            match parseItems fuel (skipWs rest2) with
            | none => none
            | some (items, rest3) => some (String.mk content :: items, rest3)
          else none
    else none

/-- `json.loads` on the fragment of JSON the serialized field ever
holds: an array of strings, with JSON whitespace allowed anywhere the
scanner skips it and nothing but whitespace after the closing bracket.
Any other document yields `none` (in CPython: either `loads` raises, or
— for non-string-array documents — a value outside the fragment this
model covers; the field is only ever written by the setter below, whose
output is inside the fragment). -/
def loadsStrList (s : String) : Option (List String) :=
  match skipWs s.data with
  | [] => none
  | c :: cs =>
    if c = '[' then
      match skipWs cs with
      | [] => none
      | d :: rest =>
        if d = ']' then if skipWs rest = [] then some [] else none
        else
          match parseItems (cs.length + 1) (skipWs cs) with
          | none => none
          | some (items, rest2) => if skipWs rest2 = [] then some items else none
    else none

/-- The `top_level_domains` getter: `[]` for a falsy stored value
(`NULL` or the empty string), `json.loads` of the text otherwise.
`none` models `json.loads` raising (or returning a value outside the
string-array fragment). -/
def topLevelDomainsGet (stored : Option String) : Option (List String) :=
  match stored with
  | none => some []
  | some s => if s = "" then some [] else loadsStrList s

/-- The `top_level_domains` setter: store `NULL` for `None`,
`json.dumps(value)` otherwise. -/
def topLevelDomainsSet (value : Option (List String)) : Option String :=
  match value with
  | none => none
  | some v => some (dumpsList v)

/-! Concrete fixtures used by counterexamples and witnesses. -/

/-- A store with no rows (primary keys start at 1, as in Django). -/
def emptyStore : Store := { regions := [], countries := [], nextRegionId := 1 }

/-- A well-formed source URL. -/
def sampleUrl : String := "http://example.com/countries.json"

/-- An input element missing the required `name` key. -/
def elemMissingName : Elem :=
  { name := none, alpha2Code := some "XX", alpha3Code := some "XXX",
    population := some (some 5), region := some "Test Region" }

/-- A fully well-formed input element. -/
def elemGood : Elem :=
  { name := some "Good Country", alpha2Code := some "GC", alpha3Code := some "GCO",
    population := some (some 7), region := some "Test Region" }

/-- An input element whose `population` key is present with JSON
`null`. -/
def elemNullPop : Elem :=
  { name := some "Nulland", alpha2Code := some "NL", alpha3Code := some "NLD",
    population := some none, region := some "Test Region" }

/-- The store of the Africa scenario of the specification, plus a
region with no countries. -/
def africaStore : Store :=
  { regions := [{ id := 1, name := "Africa" }, { id := 2, name := "Empty Region" }],
    countries :=
      [{ name := "Nigeria", alpha2Code := "NG", alpha3Code := "NGA",
         population := 200000000, regionId := 1, capital := none,
         top_level_domains_json := none },
       { name := "Egypt", alpha2Code := "EG", alpha3Code := "EGY",
         population := 100000000, regionId := 1, capital := none,
         top_level_domains_json := none }],
    nextRegionId := 3 }

/-- A pre-existing `Country` row with non-NULL `capital` and
`top_level_domains_json`, named like `elemGood`. -/
def preexistingCountry : CountryRow :=
  { name := "Good Country", alpha2Code := "AA", alpha3Code := "AAA",
    population := 1, regionId := 7, capital := some "Old Capital",
    top_level_domains_json := some "[\".gc\"]" }

/-- A store already holding `preexistingCountry` and a region row. -/
def preexistingStore : Store :=
  { regions := [{ id := 7, name := "Test Region" }],
    countries := [preexistingCountry],
    nextRegionId := 8 }


/-!
Definitions used by the idempotence proof: `finalOf` picks the last
element of a batch carrying a given country name (last write wins in
the upsert loop), and `AgreeExcept` is the simulation relation between
the store during the second run and the final store of the first run.
-/

/-- The last element of `q` whose `name` field is `some nm`, if any. -/
def finalOf : List Elem → String → Option Elem
  | [], _ => none
  | e :: rest, nm =>
    match finalOf rest nm with
    | some x => some x
    | none => if e.name == some nm then some e else none

/-- Relation between a `Country` row of the in-progress second run and
the corresponding row of the target store: the name and the two columns
the importer never writes always agree, and rows whose name is not
among the still-pending element names agree entirely. -/
def RowRel (pending : List (Option String)) (x y : CountryRow) : Prop :=
  x.name = y.name ∧ x.capital = y.capital ∧
    x.top_level_domains_json = y.top_level_domains_json ∧
    (some x.name ∉ pending → x = y)

/-- The simulation relation of the idempotence proof: regions and the
primary-key counter agree exactly, and country rows agree pointwise up
to `RowRel`. -/
structure AgreeExcept (pending : List (Option String)) (t target : Store) : Prop where
  hreg : t.regions = target.regions
  hnext : t.nextRegionId = target.nextRegionId
  hrows : List.Forall₂ (RowRel pending) t.countries target.countries

/-!
Theorems.  The inversion lemmas first unpack a successful ORM call or
loop iteration; the claim theorems follow.
-/

theorem pyOrZeroInt_eq (n : Int) : pyOrZeroInt n = n := by
  unfold pyOrZeroInt
  split
  · omega
  · rfl

theorem pyOrZero_some (m : Int) : pyOrZero (some m) = m := by
  show (if m = 0 then 0 else m) = m
  split
  · omega
  · rfl

theorem pyOrZero_sqlSum (l : List Int) : pyOrZero (sqlSum l) = l.sum := by
  cases l with
  | nil => rfl
  | cons a t => exact pyOrZero_some (a :: t).sum

theorem getOrCreateRegion_inv {s : Store} {n : String} {s1 : Store} {rid : Nat}
    (h : getOrCreateRegion s n = .ok (s1, rid)) :
    (regMatches s n = [] ∧
       s1 = { s with
                regions := s.regions ++ [{ id := s.nextRegionId, name := n }],
                nextRegionId := s.nextRegionId + 1 } ∧ rid = s.nextRegionId) ∨
    (∃ r, regMatches s n = [r] ∧ s1 = s ∧ rid = r.id) := by
  unfold getOrCreateRegion at h
  split at h
  · left
    simp only [Except.ok.injEq, Prod.mk.injEq] at h
    exact ⟨by assumption, h.1.symm, h.2.symm⟩
  · right
    simp only [Except.ok.injEq, Prod.mk.injEq] at h
    exact ⟨_, by assumption, h.1.symm, h.2.symm⟩
  · exact absurd h (by simp)

theorem getOrCreateRegion_countries {s : Store} {n : String} {s1 : Store} {rid : Nat}
    (h : getOrCreateRegion s n = .ok (s1, rid)) : s1.countries = s.countries := by
  rcases getOrCreateRegion_inv h with ⟨-, rfl, -⟩ | ⟨r, -, rfl, -⟩ <;> rfl

theorem ctryMatches_congr {s1 s2 : Store} (n : String) (h : s1.countries = s2.countries) :
    ctryMatches s1 n = ctryMatches s2 n := by
  unfold ctryMatches
  rw [h]

theorem updateOrCreateCountry_inv {s : Store} {nm a2 a3 : String} {pop : Option Int}
    {rid : Nat} {s' : Store} (h : updateOrCreateCountry s nm a2 a3 pop rid = .ok s') :
    ∃ p, pop = some p ∧
      ((ctryMatches s nm = [] ∧
         s' = { s with countries := s.countries ++
                  [{ name := nm, alpha2Code := a2, alpha3Code := a3, population := p,
                     regionId := rid, capital := none, top_level_domains_json := none }] }) ∨
       (∃ c, ctryMatches s nm = [c] ∧
         s' = { s with countries := s.countries.map (applyUpdate nm a2 a3 p rid) })) := by
  unfold updateOrCreateCountry at h
  split at h
  · split at h
    · exact absurd h (by simp)
    · simp only [Except.ok.injEq] at h
      exact ⟨_, rfl, .inl ⟨by assumption, h.symm⟩⟩
  · split at h
    · exact absurd h (by simp)
    · simp only [Except.ok.injEq] at h
      exact ⟨_, rfl, .inr ⟨_, by assumption, h.symm⟩⟩
  · exact absurd h (by simp)

theorem processElem_ok_inv {s : Store} {e : Elem} {s' : Store}
    (h : processElem s e = .ok s') :
    ∃ s1 rid nm a2 a3,
      getOrCreateRegion s (e.region.getD "") = .ok (s1, rid) ∧
      e.name = some nm ∧ e.alpha2Code = some a2 ∧ e.alpha3Code = some a3 ∧
      updateOrCreateCountry s1 nm a2 a3 (elemPop e) rid = .ok s' := by
  unfold processElem at h
  split at h
  · exact absurd h (by simp)
  next s1 rid heq =>
    split at h
    · exact absurd h (by simp)
    next nm hnm =>
      split at h
      · exact absurd h (by simp)
      next a2 ha2 =>
        split at h
        · exact absurd h (by simp)
        next a3 ha3 =>
          exact ⟨s1, rid, nm, a2, a3, heq, hnm, ha2, ha3, h⟩

/-- C7: for every source URL lacking a scheme or host, the Importer
aborts with an `InvalidInputError` (`CommandError` from the URL check
of lines 41-47) before performing any network request, and the store is
left unchanged — whatever the network would have answered. -/
theorem c7_invalid_url_aborts (s : Store) (url : String) (fetch : FetchResult)
    (h : urlScheme url = "" ∨ urlNetloc url = []) :
    handle s url fetch =
      { store := s, outcome := .error .invalidInput, requested := false } := by
  have hfalse : urlOk url = false := by
    rcases h with h | h <;> simp [urlOk, h]
  simp [handle, hfalse]

theorem c7_invalid_url_aborts_witness :
    handle emptyStore "not a url" .transportError =
      { store := emptyStore, outcome := .error .invalidInput, requested := false } :=
  c7_invalid_url_aborts emptyStore "not a url" .transportError (Or.inl (by decide))

/-- C8: for a well-formed URL, a response body that is not valid JSON
aborts with the JSON-decode `CommandError` and a body whose top-level
value is not a list aborts with the "API did not return a list of
countries" `CommandError` (both are the ParseError of the
specification); in both cases the store is unchanged and the upsert
loop is never entered. -/
theorem c8_bad_body_aborts (s : Store) (url : String) (h : urlOk url = true) :
    handle s url (.success none) =
      { store := s, outcome := .error .parse, requested := true } ∧
    handle s url (.success (some .nonList)) =
      { store := s, outcome := .error .notAList, requested := true } := by
  constructor <;> simp [handle, h]

theorem c8_bad_body_aborts_witness :
    handle emptyStore sampleUrl (.success none) =
      { store := emptyStore, outcome := .error .parse, requested := true } :=
  (c8_bad_body_aborts emptyStore sampleUrl (by decide)).1

/-- C2: all writes of one import run are inside one atomic transaction
(`@transaction.atomic` on `_process_countries_data`): when any
exception escapes the per-element loop no write persists — the
committed store is the pre-run store — and when the loop finishes every
write persists: the committed store is the final loop store. -/
theorem c2_atomic_transaction (s : Store) (url : String) (data : List Elem)
    (h : urlOk url = true) :
    (∀ err, processLoop s data = .error err →
       handle s url (.success (some (.list data))) =
         { store := s, outcome := .error (.processing err), requested := true }) ∧
    (∀ s', processLoop s data = .ok s' →
       handle s url (.success (some (.list data))) =
         { store := s', outcome := .ok (), requested := true }) := by
  constructor
  · intro err herr
    simp [handle, h, processCountriesData, herr]
  · intro s' hs
    simp [handle, h, processCountriesData, hs]

theorem c2_atomic_transaction_witness :
    handle emptyStore sampleUrl (.success (some (.list [elemMissingName, elemGood]))) =
      { store := emptyStore, outcome := .error (.processing (.keyError "name")),
        requested := true } :=
  (c2_atomic_transaction emptyStore sampleUrl [elemMissingName, elemGood]
      (by decide)).1 (.keyError "name") (by decide)

/-- C4: the `stats` view reports exactly one entry per `Region` row, in
table order; the entry carries the count of the `Country` rows
referencing the region and the plain integer sum of their populations —
for a region with zero countries both are the integer `0`, because the
`or 0` of lines 24-25 replaces the `NULL` that SQL `Sum` yields on no
rows. -/
theorem c4_stats_per_region (s : Store) (i : Nat) (h : i < s.regions.length)
    (h2 : i < (stats s).length) :
    (stats s).length = s.regions.length ∧
    (stats s).get ⟨i, h2⟩ =
      { name := (s.regions.get ⟨i, h⟩).name,
        number_countries := Int.ofNat (countriesOf s (s.regions.get ⟨i, h⟩).id).length,
        total_population :=
          ((countriesOf s (s.regions.get ⟨i, h⟩).id).map (fun c => c.population)).sum } := by
  refine ⟨by simp [stats], ?_⟩
  simp only [stats, List.get_eq_getElem, List.getElem_map]
  rw [pyOrZeroInt_eq, pyOrZero_sqlSum]

theorem c4_stats_per_region_witness :
    (stats africaStore).length = africaStore.regions.length ∧
    (stats africaStore).get ⟨1, by decide⟩ =
      { name := "Empty Region", number_countries := 0, total_population := 0 } :=
  c4_stats_per_region africaStore 1 (by decide) (by decide)

/-- C1 (code bug): an element missing the required `name` field is NOT
skipped.  The validation loop of lines 94-101 does print the
"Skipping country: Missing required field" warning, but its `continue`
only advances the per-field loop, so control still reaches the upsert:
`country_data["name"]` raises `KeyError`, the whole batch aborts with a
`CommandError`, and the transaction rolls back — here the well-formed
second element is lost too, where the claim promises it would be
imported. -/
theorem c1_missing_field_not_skipped :
    elemWarnings elemMissingName = ["name"] ∧
    processLoop emptyStore [elemMissingName, elemGood] = .error (.keyError "name") ∧
    handle emptyStore sampleUrl (.success (some (.list [elemMissingName, elemGood]))) =
      { store := emptyStore, outcome := .error (.processing (.keyError "name")),
        requested := true } := by
  decide

/-- C5 counterexample: an element whose `population` key is present
with JSON `null` does not get population `0`.  `dict.get("population",
0)` only substitutes the default for an absent key, so `None` reaches
`update_or_create`, violates the NOT NULL constraint, and the run
aborts with nothing stored at all — the claim instead promises a stored
country with population `0`. -/
theorem c5_null_population_counterexample :
    processLoop emptyStore [elemNullPop] = .error .integrityError ∧
    handle emptyStore sampleUrl (.success (some (.list [elemNullPop]))) =
      { store := emptyStore, outcome := .error (.processing .integrityError),
        requested := true } ∧
    (handle emptyStore sampleUrl (.success (some (.list [elemNullPop])))).store.countries
      = [] := by
  decide

/-- C5 as amended: the stored population is `0` exactly when the
`population` key is absent; a present integer value is stored as is;
and a present `null` value is never defaulted — no element with a
`null` population is ever processed successfully (the save raises
`IntegrityError`, aborting the batch). -/
theorem c5_population_default_amended (s s' : Store) (e : Elem) (nm : String)
    (hnm : e.name = some nm) (h : processElem s e = .ok s') :
    e.population ≠ some none ∧
    ∃ c, c ∈ s'.countries ∧ c.name = nm ∧
      c.population = (match e.population with
                      | none => 0
                      | some none => 0
                      | some (some v) => v) := by
  obtain ⟨s1, rid, nm', a2, a3, hreg, hnm', ha2, ha3, hupd⟩ := processElem_ok_inv h
  rw [hnm] at hnm'
  injection hnm' with hnmeq
  subst hnmeq
  obtain ⟨p, hp, hcases⟩ := updateOrCreateCountry_inv hupd
  have hpopnn : e.population ≠ some none := by
    intro hnull
    unfold elemPop at hp
    rw [hnull] at hp
    exact Option.noConfusion hp
  have hpeq : p = (match e.population with
      | none => 0 | some none => 0 | some (some v) => v) := by
    unfold elemPop at hp
    cases hpop : e.population with
    | none => rw [hpop] at hp; injection hp with hh; rw [hh]
    | some v =>
      cases v with
      | none => exact absurd hpop hpopnn
      | some w => rw [hpop] at hp; injection hp with hh; rw [hh]
  refine ⟨hpopnn, ?_⟩
  rcases hcases with ⟨-, rfl⟩ | ⟨c0, hc0, rfl⟩
  · exact ⟨_, List.mem_append_right _ (List.mem_singleton.mpr rfl), rfl, hpeq⟩
  · have hc0mem : c0 ∈ s1.countries ∧ (c0.name == nm) = true := by
      have hmem : c0 ∈ ctryMatches s1 nm := by
        rw [hc0]
        exact List.mem_singleton.mpr rfl
      exact List.mem_filter.mp hmem
    have hc0name : c0.name = nm := by simpa using hc0mem.2
    refine ⟨applyUpdate nm a2 a3 p rid c0, List.mem_map_of_mem _ hc0mem.1, ?_, ?_⟩
    · unfold applyUpdate
      split
      · exact hc0name
      · exact hc0name
    · unfold applyUpdate
      rw [if_pos hc0mem.2]
      exact hpeq

theorem c5_population_default_amended_witness :
    elemGood.population ≠ some none ∧
    ∃ c, c ∈ (Store.countries
        { regions := [{ id := 1, name := "Test Region" }],
          countries := [{ name := "Good Country", alpha2Code := "GC", alpha3Code := "GCO",
                          population := 7, regionId := 1, capital := none,
                          top_level_domains_json := none }],
          nextRegionId := 2 }) ∧ c.name = "Good Country" ∧ c.population = 7 :=
  c5_population_default_amended emptyStore
    { regions := [{ id := 1, name := "Test Region" }],
      countries := [{ name := "Good Country", alpha2Code := "GC", alpha3Code := "GCO",
                      population := 7, regionId := 1, capital := none,
                      top_level_domains_json := none }],
      nextRegionId := 2 }
    elemGood "Good Country" (by decide) (by decide)

/-- C9: when the upsert hits an existing `Country` (the store holds
exactly one row with the element's name), only `alpha2Code`,
`alpha3Code`, `population` and `region` are overwritten: the updated
row is literally the old row with those four fields replaced, so
`capital` and `top_level_domains_json` keep their previous values. -/
theorem c9_update_preserves_untouched (s s' : Store) (e : Elem) (nm : String)
    (c : CountryRow) (hnm : e.name = some nm) (hc : ctryMatches s nm = [c])
    (h : processElem s e = .ok s') :
    ∃ a2 a3 p rid, e.alpha2Code = some a2 ∧ e.alpha3Code = some a3 ∧
      elemPop e = some p ∧
      { c with alpha2Code := a2, alpha3Code := a3, population := p, regionId := rid }
        ∈ s'.countries := by
  obtain ⟨s1, rid, nm', a2, a3, hreg, hnm', ha2, ha3, hupd⟩ := processElem_ok_inv h
  rw [hnm] at hnm'
  injection hnm' with hnmeq
  subst hnmeq
  obtain ⟨p, hp, hcases⟩ := updateOrCreateCountry_inv hupd
  have hs1c : ctryMatches s1 nm = [c] := by
    rw [ctryMatches_congr nm (getOrCreateRegion_countries hreg)]
    exact hc
  rcases hcases with ⟨hempty, rfl⟩ | ⟨c0, hc0, rfl⟩
  · rw [hs1c] at hempty
    exact absurd hempty (by simp)
  · rw [hs1c] at hc0
    injection hc0 with hceq hnil
    subst hceq
    refine ⟨a2, a3, p, rid, ha2, ha3, hp, ?_⟩
    have hcmem : c ∈ ctryMatches s1 nm := by
      rw [hs1c]
      exact List.mem_singleton.mpr rfl
    have hcfm := List.mem_filter.mp hcmem
    have hrw : applyUpdate nm a2 a3 p rid c =
        { c with alpha2Code := a2, alpha3Code := a3, population := p, regionId := rid } := by
      unfold applyUpdate
      rw [if_pos hcfm.2]
    rw [← hrw]
    exact List.mem_map_of_mem _ hcfm.1

theorem c9_update_preserves_untouched_witness :
    ∃ a2 a3 p rid, elemGood.alpha2Code = some a2 ∧ elemGood.alpha3Code = some a3 ∧
      elemPop elemGood = some p ∧
      { preexistingCountry with
          alpha2Code := a2, alpha3Code := a3, population := p, regionId := rid }
        ∈ (Store.countries
            { regions := [{ id := 7, name := "Test Region" }],
              countries := [{ name := "Good Country", alpha2Code := "GC", alpha3Code := "GCO",
                              population := 7, regionId := 7, capital := some "Old Capital",
                              top_level_domains_json := some "[\".gc\"]" }],
              nextRegionId := 8 }) :=
  c9_update_preserves_untouched preexistingStore
    { regions := [{ id := 7, name := "Test Region" }],
      countries := [{ name := "Good Country", alpha2Code := "GC", alpha3Code := "GCO",
                      population := 7, regionId := 7, capital := some "Old Capital",
                      top_level_domains_json := some "[\".gc\"]" }],
      nextRegionId := 8 }
    elemGood "Good Country" preexistingCountry (by decide) (by decide) (by decide)

theorem regMatches_congr {s1 s2 : Store} (n : String) (h : s1.regions = s2.regions) :
    regMatches s1 n = regMatches s2 n := by
  unfold regMatches
  rw [h]

theorem applyUpdate_name (nm a2 a3 : String) (p : Int) (rid : Nat) (c : CountryRow) :
    (applyUpdate nm a2 a3 p rid c).name = c.name := by
  unfold applyUpdate
  split
  · rfl
  · rfl

theorem updateOrCreateCountry_regions {s : Store} {nm a2 a3 : String} {pop : Option Int}
    {rid : Nat} {s' : Store} (h : updateOrCreateCountry s nm a2 a3 pop rid = .ok s') :
    s'.regions = s.regions ∧ s'.nextRegionId = s.nextRegionId := by
  obtain ⟨p, -, hcases⟩ := updateOrCreateCountry_inv h
  rcases hcases with ⟨-, rfl⟩ | ⟨c0, -, rfl⟩ <;> exact ⟨rfl, rfl⟩

theorem processElem_ok_keys {s : Store} {e : Elem} {s' : Store}
    (h : processElem s e = .ok s') :
    e.name.isSome ∧ e.alpha2Code.isSome ∧ e.alpha3Code.isSome ∧ (elemPop e).isSome := by
  obtain ⟨s1, rid, nm, a2, a3, -, hnm, ha2, ha3, hupd⟩ := processElem_ok_inv h
  obtain ⟨p, hp, -⟩ := updateOrCreateCountry_inv hupd
  exact ⟨by rw [hnm]; rfl, by rw [ha2]; rfl, by rw [ha3]; rfl, by rw [hp]; rfl⟩

theorem regMatches_append_new {s : Store} {n n' : String} (hne : (n' == n) = false) :
    regMatches { s with
                   regions := s.regions ++ [{ id := s.nextRegionId, name := n' }],
                   nextRegionId := s.nextRegionId + 1 } n = regMatches s n := by
  unfold regMatches
  rw [List.filter_append]
  simp [hne]

theorem getOrCreateRegion_pres {s s1 : Store} {n n' : String} {rid : Nat} {r : RegionRow}
    (hr : regMatches s n = [r]) (h : getOrCreateRegion s n' = .ok (s1, rid)) :
    regMatches s1 n = [r] := by
  rcases getOrCreateRegion_inv h with ⟨hempty, rfl, -⟩ | ⟨r', -, rfl, -⟩
  · have hne : (n' == n) = false := by
      rcases hbe : n' == n with - | -
      · rfl
      · rw [show n' = n from by simpa using hbe] at hempty
        rw [hempty] at hr
        exact absurd hr (by simp)
    rw [regMatches_append_new hne]
    exact hr
  · exact hr

theorem getOrCreateRegion_self {s s1 : Store} {n : String} {rid : Nat}
    (h : getOrCreateRegion s n = .ok (s1, rid)) :
    ∃ r, regMatches s1 n = [r] ∧ r.id = rid := by
  rcases getOrCreateRegion_inv h with ⟨hempty, rfl, rfl⟩ | ⟨r, hr, rfl, rfl⟩
  · refine ⟨{ id := s.nextRegionId, name := n }, ?_, rfl⟩
    show regMatches { s with
                        regions := s.regions ++ [{ id := s.nextRegionId, name := n }],
                        nextRegionId := s.nextRegionId + 1 } n = _
    unfold regMatches at hempty ⊢
    rw [List.filter_append]
    simp only [hempty, List.nil_append]
    simp
  · exact ⟨r, hr, rfl⟩

theorem processElem_pres_reg {s s' : Store} {e : Elem} {n : String} {r : RegionRow}
    (hr : regMatches s n = [r]) (h : processElem s e = .ok s') :
    regMatches s' n = [r] := by
  obtain ⟨s1, rid, nm, a2, a3, hreg, -, -, -, hupd⟩ := processElem_ok_inv h
  have h1 := getOrCreateRegion_pres hr hreg
  rw [regMatches_congr n (updateOrCreateCountry_regions hupd).1]
  exact h1

theorem processElem_reg_self {s s' : Store} {e : Elem}
    (h : processElem s e = .ok s') :
    ∃ r, regMatches s' (e.region.getD "") = [r] := by
  obtain ⟨s1, rid, nm, a2, a3, hreg, -, -, -, hupd⟩ := processElem_ok_inv h
  obtain ⟨r, hr, -⟩ := getOrCreateRegion_self hreg
  refine ⟨r, ?_⟩
  rw [regMatches_congr _ (updateOrCreateCountry_regions hupd).1]
  exact hr

theorem processLoop_pres_reg {s u : Store} {q : List Elem} {n : String} {r : RegionRow}
    (hr : regMatches s n = [r]) (h : processLoop s q = .ok u) :
    regMatches u n = [r] := by
  induction q generalizing s with
  | nil =>
    unfold processLoop at h
    injection h with hh
    rw [← hh]
    exact hr
  | cons e rest ih =>
    unfold processLoop at h
    split at h
    · exact absurd h (by simp)
    next s1 hs1 => exact ih (processElem_pres_reg hr hs1) h

theorem processLoop_reg_of_mem {s u : Store} {q : List Elem} {e : Elem}
    (h : processLoop s q = .ok u) (he : e ∈ q) :
    ∃ r, regMatches u (e.region.getD "") = [r] := by
  induction q generalizing s with
  | nil => exact absurd he (by simp)
  | cons e0 rest ih =>
    unfold processLoop at h
    split at h
    · exact absurd h (by simp)
    next s1 hs1 =>
      rcases List.mem_cons.mp he with rfl | hmem
      · obtain ⟨r, hr⟩ := processElem_reg_self hs1
        exact ⟨r, processLoop_pres_reg hr h⟩
      · exact ih h hmem

theorem processLoop_keys_of_mem {s u : Store} {q : List Elem} {e : Elem}
    (h : processLoop s q = .ok u) (he : e ∈ q) :
    e.name.isSome ∧ e.alpha2Code.isSome ∧ e.alpha3Code.isSome ∧ (elemPop e).isSome := by
  induction q generalizing s with
  | nil => exact absurd he (by simp)
  | cons e0 rest ih =>
    unfold processLoop at h
    split at h
    · exact absurd h (by simp)
    next s1 hs1 =>
      rcases List.mem_cons.mp he with rfl | hmem
      · exact processElem_ok_keys hs1
      · exact ih h hmem

theorem filter_map_applyUpdate (nm nm' a2 a3 : String) (p : Int) (rid : Nat)
    (cs : List CountryRow) :
    (cs.map (applyUpdate nm' a2 a3 p rid)).filter (fun c => c.name == nm) =
      (cs.filter (fun c => c.name == nm)).map (applyUpdate nm' a2 a3 p rid) := by
  induction cs with
  | nil => rfl
  | cons c t ih =>
    simp only [List.map_cons, List.filter_cons, applyUpdate_name]
    split
    · simp only [List.map_cons, ih]
    · exact ih

theorem map_applyUpdate_ne {nm nm' : String} (a2 a3 : String) (p : Int) (rid : Nat)
    {cs : List CountryRow} (hne : nm' ≠ nm) (hall : ∀ c ∈ cs, (c.name == nm) = true) :
    cs.map (applyUpdate nm' a2 a3 p rid) = cs := by
  have : ∀ c ∈ cs, applyUpdate nm' a2 a3 p rid c = c := by
    intro c hc
    unfold applyUpdate
    have hname : c.name = nm := by simpa using hall c hc
    rw [if_neg]
    simp [hname]
    exact fun hcontra => hne hcontra.symm
  calc cs.map (applyUpdate nm' a2 a3 p rid) = cs.map id := List.map_congr_left this
    _ = cs := List.map_id cs

theorem processElem_pres_ctry {s s' : Store} {e : Elem} {nm nm' : String}
    (hnm : e.name = some nm') (hne : nm' ≠ nm) (h : processElem s e = .ok s') :
    ctryMatches s' nm = ctryMatches s nm := by
  obtain ⟨s1, rid, nm0, a2, a3, hreg, hnm0, -, -, hupd⟩ := processElem_ok_inv h
  rw [hnm] at hnm0
  injection hnm0 with hnmeq
  subst hnmeq
  have hs1 : ctryMatches s1 nm = ctryMatches s nm :=
    ctryMatches_congr nm (getOrCreateRegion_countries hreg)
  obtain ⟨p, hp, hcases⟩ := updateOrCreateCountry_inv hupd
  rcases hcases with ⟨hempty, rfl⟩ | ⟨c0, hc0, rfl⟩
  · show (s1.countries ++ _).filter _ = _
    rw [List.filter_append]
    have : ([{ name := nm', alpha2Code := a2, alpha3Code := a3, population := p,
               regionId := rid, capital := none,
               top_level_domains_json := none }] : List CountryRow).filter
        (fun c => c.name == nm) = [] := by
      simp [hne]
    rw [this, List.append_nil]
    exact hs1
  · show (s1.countries.map _).filter _ = _
    rw [filter_map_applyUpdate]
    have hall : ∀ c ∈ ctryMatches s1 nm, (c.name == nm) = true := by
      intro c hc
      exact (List.mem_filter.mp hc).2
    show (ctryMatches s1 nm).map _ = _
    rw [map_applyUpdate_ne a2 a3 p rid hne hall]
    exact hs1

theorem processLoop_pres_ctry {s u : Store} {q : List Elem} {nm : String}
    (hnotin : ∀ e ∈ q, e.name ≠ some nm) (h : processLoop s q = .ok u) :
    ctryMatches u nm = ctryMatches s nm := by
  induction q generalizing s with
  | nil =>
    unfold processLoop at h
    injection h with hh
    rw [← hh]
  | cons e0 rest ih =>
    unfold processLoop at h
    split at h
    · exact absurd h (by simp)
    next s1 hs1 =>
      obtain ⟨s2, rid, nm0, a2, a3, -, hnm0, -, -, -⟩ := processElem_ok_inv hs1
      have hne : nm0 ≠ nm := by
        intro hcontra
        exact hnotin e0 (List.mem_cons_self e0 rest) (by rw [hnm0, hcontra])
      calc ctryMatches u nm
          = ctryMatches s1 nm := ih (fun e he => hnotin e (List.mem_cons_of_mem _ he)) h
        _ = ctryMatches s nm := processElem_pres_ctry hnm0 hne hs1

theorem processElem_ctry_self {s s' : Store} {e : Elem} {nm : String}
    (hnm : e.name = some nm) (h : processElem s e = .ok s') :
    ∃ c' r a2 a3 p, ctryMatches s' nm = [c'] ∧
      regMatches s' (e.region.getD "") = [r] ∧
      e.alpha2Code = some a2 ∧ e.alpha3Code = some a3 ∧ elemPop e = some p ∧
      c'.alpha2Code = a2 ∧ c'.alpha3Code = a3 ∧ c'.population = p ∧
      c'.regionId = r.id := by
  obtain ⟨s1, rid, nm0, a2, a3, hreg, hnm0, ha2, ha3, hupd⟩ := processElem_ok_inv h
  rw [hnm] at hnm0
  injection hnm0 with hnmeq
  subst hnmeq
  obtain ⟨r, hr, hrid⟩ := getOrCreateRegion_self hreg
  have hs1c : ctryMatches s1 nm = ctryMatches s nm :=
    ctryMatches_congr nm (getOrCreateRegion_countries hreg)
  obtain ⟨p, hp, hcases⟩ := updateOrCreateCountry_inv hupd
  rcases hcases with ⟨hempty, rfl⟩ | ⟨c0, hc0, rfl⟩
  · refine ⟨{ name := nm, alpha2Code := a2, alpha3Code := a3, population := p,
              regionId := rid, capital := none, top_level_domains_json := none },
            r, a2, a3, p, ?_, ?_, ha2, ha3, hp, rfl, rfl, rfl, hrid.symm⟩
    · show (s1.countries ++ _).filter _ = _
      rw [List.filter_append]
      unfold ctryMatches at hempty
      rw [hempty, List.nil_append]
      simp
    · exact hr
  · have hc0name : (c0.name == nm) = true := by
      have : c0 ∈ ctryMatches s1 nm := by
        rw [hc0]
        exact List.mem_singleton.mpr rfl
      exact (List.mem_filter.mp this).2
    refine ⟨applyUpdate nm a2 a3 p rid c0, r, a2, a3, p, ?_, hr, ha2, ha3, hp, ?_, ?_, ?_, ?_⟩
    · show (s1.countries.map _).filter _ = _
      rw [filter_map_applyUpdate]
      show (ctryMatches s1 nm).map _ = _
      rw [hc0]
      rfl
    · unfold applyUpdate
      rw [if_pos hc0name]
    · unfold applyUpdate
      rw [if_pos hc0name]
    · unfold applyUpdate
      rw [if_pos hc0name]
    · unfold applyUpdate
      rw [if_pos hc0name]
      exact hrid.symm

theorem finalOf_cons_some {rest : List Elem} {nm : String} {x : Elem} (e : Elem)
    (h : finalOf rest nm = some x) : finalOf (e :: rest) nm = some x := by
  unfold finalOf
  rw [h]

theorem finalOf_cons_none_self {rest : List Elem} {nm : String} {e : Elem}
    (hrest : finalOf rest nm = none) (hnm : e.name = some nm) :
    finalOf (e :: rest) nm = some e := by
  unfold finalOf
  rw [hrest]
  simp [hnm]

theorem finalOf_isSome_of_mem {q : List Elem} {nm : String} {e : Elem}
    (he : e ∈ q) (hnm : e.name = some nm) : ∃ x, finalOf q nm = some x := by
  induction q with
  | nil => exact absurd he (by simp)
  | cons e0 rest ih =>
    rcases List.mem_cons.mp he with rfl | hmem
    · cases hrest : finalOf rest nm with
      | some x => exact ⟨x, finalOf_cons_some _ hrest⟩
      | none => exact ⟨_, finalOf_cons_none_self hrest hnm⟩
    · obtain ⟨x, hx⟩ := ih hmem
      exact ⟨x, finalOf_cons_some _ hx⟩

theorem finalOf_none_of_notin {q : List Elem} {nm : String}
    (h : some nm ∉ q.map (fun e => e.name)) : finalOf q nm = none := by
  induction q with
  | nil => rfl
  | cons e0 rest ih =>
    have hrest : finalOf rest nm = none := by
      refine ih (fun hc => h ?_)
      simp only [List.map_cons, List.mem_cons]
      exact Or.inr hc
    have hhead : e0.name ≠ some nm := by
      intro hc
      exact h (by simp [hc])
    unfold finalOf
    rw [hrest]
    simp [hhead]

theorem notin_of_finalOf_none {q : List Elem} {nm : String}
    (h : finalOf q nm = none) : ∀ e ∈ q, e.name ≠ some nm := by
  induction q with
  | nil => exact fun e he => absurd he (by simp)
  | cons e0 rest ih =>
    unfold finalOf at h
    intro e he
    rcases List.mem_cons.mp he with rfl | hmem
    · intro hc
      cases hfr : finalOf rest nm with
      | some x => rw [hfr] at h; exact Option.noConfusion h
      | none =>
        rw [hfr] at h
        rw [if_pos (by simp [hc])] at h
        exact Option.noConfusion h
    · refine ih ?_ e hmem
      cases hfr : finalOf rest nm with
      | some x => rw [hfr] at h; exact Option.noConfusion h
      | none => rfl

theorem processLoop_final {s u : Store} {q : List Elem} {nm : String} {e : Elem}
    (h : processLoop s q = .ok u) (hf : finalOf q nm = some e) :
    ∃ c' r a2 a3 p, ctryMatches u nm = [c'] ∧
      regMatches u (e.region.getD "") = [r] ∧
      e.alpha2Code = some a2 ∧ e.alpha3Code = some a3 ∧ elemPop e = some p ∧
      c'.alpha2Code = a2 ∧ c'.alpha3Code = a3 ∧ c'.population = p ∧
      c'.regionId = r.id := by
  induction q generalizing s with
  | nil => exact absurd hf (by simp [finalOf])
  | cons e0 rest ih =>
    unfold processLoop at h
    split at h
    · exact absurd h (by simp)
    next s1 hs1 =>
      unfold finalOf at hf
      cases hrest : finalOf rest nm with
      | some x =>
        rw [hrest] at hf
        injection hf with hxe
        subst hxe
        exact ih h hrest
      | none =>
        rw [hrest] at hf
        by_cases hcond : (e0.name == some nm) = true
        · rw [if_pos hcond] at hf
          injection hf with he0
          subst he0
          have hnm0 : e0.name = some nm := by simpa using hcond
          obtain ⟨c', r, a2, a3, p, hc, hr, ha2, ha3, hp, h1, h2, h3, h4⟩ :=
            processElem_ctry_self hnm0 hs1
          have hnotin := notin_of_finalOf_none hrest
          refine ⟨c', r, a2, a3, p, ?_, ?_, ha2, ha3, hp, h1, h2, h3, h4⟩
          · rw [processLoop_pres_ctry hnotin h]
            exact hc
          · exact processLoop_pres_reg hr h
        · rw [if_neg hcond] at hf
          exact Option.noConfusion hf

theorem processLoop_ctry_of_mem {s u : Store} {q : List Elem} {e : Elem} {nm : String}
    (h : processLoop s q = .ok u) (he : e ∈ q) (hnm : e.name = some nm) :
    ∃ c', ctryMatches u nm = [c'] := by
  obtain ⟨x, hx⟩ := finalOf_isSome_of_mem he hnm
  obtain ⟨c', r, a2, a3, p, hc, -⟩ := processLoop_final h hx
  exact ⟨c', hc⟩

theorem applyUpdate_capital (nm a2 a3 : String) (p : Int) (rid : Nat) (c : CountryRow) :
    (applyUpdate nm a2 a3 p rid c).capital = c.capital := by
  unfold applyUpdate
  split
  · rfl
  · rfl

theorem applyUpdate_tld (nm a2 a3 : String) (p : Int) (rid : Nat) (c : CountryRow) :
    (applyUpdate nm a2 a3 p rid c).top_level_domains_json = c.top_level_domains_json := by
  unfold applyUpdate
  split
  · rfl
  · rfl

theorem forall2_eq_lists {l1 l2 : List CountryRow}
    (h : List.Forall₂ (fun a b => a = b) l1 l2) : l1 = l2 := by
  induction h with
  | nil => rfl
  | cons hxy htail ih => rw [hxy, ih]

theorem AgreeExcept_refl (pend : List (Option String)) (t : Store) : AgreeExcept pend t t :=
  ⟨rfl, rfl, List.forall₂_same.mpr (fun x _ => ⟨rfl, rfl, rfl, fun _ => rfl⟩)⟩

theorem AgreeExcept_nil {t target : Store} (h : AgreeExcept [] t target) : t = target := by
  have hc : t.countries = target.countries :=
    forall2_eq_lists (h.hrows.imp (fun a b hab => hab.2.2.2 (List.not_mem_nil _)))
  exact Store.ext h.hreg hc h.hnext

theorem forall2_filter_length {pend : List (Option String)} {nm : String}
    {l1 l2 : List CountryRow} (h : List.Forall₂ (RowRel pend) l1 l2) :
    (l1.filter (fun c => c.name == nm)).length =
      (l2.filter (fun c => c.name == nm)).length := by
  induction h with
  | nil => rfl
  | cons hxy htail ih =>
    simp only [List.filter_cons]
    rw [hxy.1]
    split
    · simp only [List.length_cons, ih]
    · exact ih

theorem eq_of_filter_singleton {l : List CountryRow} {nm : String} {c : CountryRow}
    (h : l.filter (fun x => x.name == nm) = [c]) :
    ∀ y ∈ l, y.name = nm → y = c := by
  intro y hy hyname
  have hmem : y ∈ l.filter (fun x => x.name == nm) :=
    List.mem_filter.mpr ⟨hy, by simp [hyname]⟩
  rw [h] at hmem
  exact List.mem_singleton.mp hmem

theorem forall2_step_pending {pend : List (Option String)} {nm a2 a3 : String} {p : Int}
    {rid : Nat} {l1 l2 : List CountryRow} (hmem : some nm ∈ pend)
    (h : List.Forall₂ (RowRel (some nm :: pend)) l1 l2) :
    List.Forall₂ (RowRel pend) (l1.map (applyUpdate nm a2 a3 p rid)) l2 := by
  induction h with
  | nil => exact .nil
  | @cons x y t1 t2 hxy htail ih =>
    refine .cons ?_ ih
    obtain ⟨hn, hc, ht, heq⟩ := hxy
    refine ⟨by rw [applyUpdate_name, hn], by rw [applyUpdate_capital, hc],
            by rw [applyUpdate_tld, ht], ?_⟩
    intro hnot
    rw [applyUpdate_name] at hnot
    by_cases hxnm : x.name = nm
    · exact absurd hmem (hxnm ▸ hnot)
    · have hx : applyUpdate nm a2 a3 p rid x = x := by
        unfold applyUpdate
        rw [if_neg (by simp [hxnm])]
      rw [hx]
      refine heq (fun hcontra => ?_)
      rcases List.mem_cons.mp hcontra with h1 | h1
      · exact hxnm (by injection h1)
      · exact hnot h1

theorem forall2_step_last {pend : List (Option String)} {nm a2 a3 : String} {p : Int}
    {rid : Nat} {l1 l2 : List CountryRow}
    (h : List.Forall₂ (RowRel (some nm :: pend)) l1 l2)
    (huniq : ∀ y ∈ l2, y.name = nm →
      y.alpha2Code = a2 ∧ y.alpha3Code = a3 ∧ y.population = p ∧ y.regionId = rid) :
    List.Forall₂ (RowRel pend) (l1.map (applyUpdate nm a2 a3 p rid)) l2 := by
  induction h with
  | nil => exact .nil
  | @cons x y t1 t2 hxy htail ih =>
    refine .cons ?_ (ih (fun y2 hy2 => huniq y2 (List.mem_cons_of_mem _ hy2)))
    obtain ⟨hn, hc, ht, heq⟩ := hxy
    refine ⟨by rw [applyUpdate_name, hn], by rw [applyUpdate_capital, hc],
            by rw [applyUpdate_tld, ht], ?_⟩
    intro hnot2
    rw [applyUpdate_name] at hnot2
    by_cases hxnm : x.name = nm
    · have hyname : y.name = nm := by
        rw [← hn]
        exact hxnm
      obtain ⟨hya2, hya3, hyp, hyr⟩ := huniq y (List.mem_cons_self _ _) hyname
      have hxu : applyUpdate nm a2 a3 p rid x =
          { x with alpha2Code := a2, alpha3Code := a3, population := p, regionId := rid } := by
        unfold applyUpdate
        rw [if_pos (by simp [hxnm])]
      rw [hxu]
      exact CountryRow.ext hn hya2.symm hya3.symm hyp.symm hyr.symm hc ht
    · have hx : applyUpdate nm a2 a3 p rid x = x := by
        unfold applyUpdate
        rw [if_neg (by simp [hxnm])]
      rw [hx]
      refine heq (fun hcontra => ?_)
      rcases List.mem_cons.mp hcontra with h1 | h1
      · exact hxnm (by injection h1)
      · exact hnot2 h1

theorem processLoop_fixpoint (target : Store) (q : List Elem) :
    ∀ (t : Store),
      AgreeExcept (q.map (fun e => e.name)) t target →
      (∀ e ∈ q, ∃ r, regMatches target (e.region.getD "") = [r]) →
      (∀ e ∈ q, e.name.isSome ∧ e.alpha2Code.isSome ∧ e.alpha3Code.isSome ∧
        (elemPop e).isSome) →
      (∀ nm e, finalOf q nm = some e →
        ∃ c' r a2 a3 p, ctryMatches target nm = [c'] ∧
          regMatches target (e.region.getD "") = [r] ∧
          e.alpha2Code = some a2 ∧ e.alpha3Code = some a3 ∧ elemPop e = some p ∧
          c'.alpha2Code = a2 ∧ c'.alpha3Code = a3 ∧ c'.population = p ∧
          c'.regionId = r.id) →
      (∀ e ∈ q, ∀ nm, e.name = some nm → ∃ c', ctryMatches target nm = [c']) →
      processLoop t q = .ok target := by
  induction q with
  | nil =>
    intro t hagree h1 h2 h3 h4
    rw [show t = target from AgreeExcept_nil hagree]
    rfl
  | cons e rest ih =>
    intro t hagree hregH hkeys hfinalH hctryH
    obtain ⟨hn1, hn2, hn3, hn4⟩ := hkeys e (List.mem_cons_self e rest)
    obtain ⟨nm, hnm⟩ := Option.isSome_iff_exists.mp hn1
    obtain ⟨a2, ha2⟩ := Option.isSome_iff_exists.mp hn2
    obtain ⟨a3, ha3⟩ := Option.isSome_iff_exists.mp hn3
    obtain ⟨p, hp⟩ := Option.isSome_iff_exists.mp hn4
    obtain ⟨r, hrtar⟩ := hregH e (List.mem_cons_self e rest)
    have hrt : regMatches t (e.region.getD "") = [r] := by
      rw [regMatches_congr _ hagree.hreg]
      exact hrtar
    have hgo : getOrCreateRegion t (e.region.getD "") = .ok (t, r.id) := by
      unfold getOrCreateRegion
      rw [hrt]
    obtain ⟨c', hc'⟩ := hctryH e (List.mem_cons_self e rest) nm hnm
    have hlen : (ctryMatches t nm).length = 1 := by
      have hll := @forall2_filter_length _ nm _ _ hagree.hrows
      show (t.countries.filter (fun c => c.name == nm)).length = 1
      rw [hll]
      show (ctryMatches target nm).length = 1
      rw [hc']
      rfl
    obtain ⟨ct, hct⟩ := List.length_eq_one.mp hlen
    have hupd : updateOrCreateCountry t nm a2 a3 (elemPop e) r.id =
        .ok { t with countries := t.countries.map (applyUpdate nm a2 a3 p r.id) } := by
      simp only [updateOrCreateCountry, hct, hp]
    have hpe : processElem t e = .ok
        { t with countries := t.countries.map (applyUpdate nm a2 a3 p r.id) } := by
      simp only [processElem, hgo, hnm, ha2, ha3]
      exact hupd
    have hrows0 : List.Forall₂ (RowRel (some nm :: rest.map (fun e2 => e2.name)))
        t.countries target.countries := by
      have hh := hagree.hrows
      rw [List.map_cons, hnm] at hh
      exact hh
    have hrows' : List.Forall₂ (RowRel (rest.map (fun e2 => e2.name)))
        (t.countries.map (applyUpdate nm a2 a3 p r.id)) target.countries := by
      by_cases hmem : some nm ∈ rest.map (fun e2 => e2.name)
      · exact forall2_step_pending hmem hrows0
      · have hfinrest : finalOf rest nm = none := finalOf_none_of_notin hmem
        have hfin : finalOf (e :: rest) nm = some e := finalOf_cons_none_self hfinrest hnm
        obtain ⟨c'', r', a2', a3', p', hc'', hr', ha2', ha3', hp', hf1, hf2, hf3, hf4⟩ :=
          hfinalH nm e hfin
        have hre : r' = r := by
          have hrr := hrtar.symm.trans hr'
          injection hrr with h1
          exact h1.symm
        have ha2e : a2' = a2 := by
          rw [ha2] at ha2'
          injection ha2' with hh
          exact hh.symm
        have ha3e : a3' = a3 := by
          rw [ha3] at ha3'
          injection ha3' with hh
          exact hh.symm
        have hpp : p' = p := by
          rw [hp] at hp'
          injection hp' with hh
          exact hh.symm
        have huniq : ∀ y ∈ target.countries, y.name = nm →
            y.alpha2Code = a2 ∧ y.alpha3Code = a3 ∧ y.population = p ∧
              y.regionId = r.id := by
          intro y hy hyname
          have hyc : y = c'' := eq_of_filter_singleton hc'' y hy hyname
          refine ⟨?_, ?_, ?_, ?_⟩
          · rw [hyc, hf1, ha2e]
          · rw [hyc, hf2, ha3e]
          · rw [hyc, hf3, hpp]
          · rw [hyc, hf4, hre]
        exact forall2_step_last hrows0 huniq
    have hagree' : AgreeExcept (rest.map (fun e2 => e2.name))
        { t with countries := t.countries.map (applyUpdate nm a2 a3 p r.id) } target :=
      ⟨hagree.hreg, hagree.hnext, hrows'⟩
    have hrest := ih { t with countries := t.countries.map (applyUpdate nm a2 a3 p r.id) }
        hagree'
        (fun e2 he2 => hregH e2 (List.mem_cons_of_mem _ he2))
        (fun e2 he2 => hkeys e2 (List.mem_cons_of_mem _ he2))
        (fun nm2 e2 hf2 => hfinalH nm2 e2 (finalOf_cons_some _ hf2))
        (fun e2 he2 nm2 h2 => hctryH e2 (List.mem_cons_of_mem _ he2) nm2 h2)
    show processLoop t (e :: rest) = .ok target
    simp only [processLoop, hpe]
    exact hrest

theorem processLoop_idem {s s' : Store} {l : List Elem}
    (h : processLoop s l = .ok s') : processLoop s' l = .ok s' :=
  processLoop_fixpoint s' l s' (AgreeExcept_refl _ s')
    (fun e he => processLoop_reg_of_mem h he)
    (fun e he => processLoop_keys_of_mem h he)
    (fun nm e hf => processLoop_final h hf)
    (fun e he nm hnm => processLoop_ctry_of_mem h he hnm)

/-- C3: one full run of the command is idempotent on the store.
Whatever the URL and the fetched body, running `handle` a second time
on the committed store of a first run with the identical input commits
the same store again: failed runs roll back to the unchanged store on
both passes, and for a successful run the final store of the first pass
is a fixed point of the upsert loop (regions are only looked up, and
every country row is rewritten with the values of the last input
element carrying its name — the same values it already holds); in
particular no duplicate `Country` rows appear and every `Country` keeps
the same field values. -/
theorem c3_import_idempotent (s : Store) (url : String) (fetch : FetchResult) :
    (handle (handle s url fetch).store url fetch).store = (handle s url fetch).store := by
  by_cases hurl : urlOk url = true
  · cases fetch with
    | transportError => simp [handle, hurl]
    | success b =>
      cases b with
      | none => simp [handle, hurl]
      | some pb =>
        cases pb with
        | nonList => simp [handle, hurl]
        | list data =>
          cases hp : processLoop s data with
          | error err => simp [handle, hurl, processCountriesData, hp]
          | ok s' =>
            have h2 := processLoop_idem hp
            simp [handle, hurl, processCountriesData, hp, h2]
  · have hfalse : urlOk url = false := by
      revert hurl
      cases urlOk url
      · intro _
        rfl
      · intro hc
        exact absurd rfl hc
    simp [handle, hfalse]

/-- C6: after a successful run of the upsert loop, each region name
occurring in the input (the value `country_data.get("region", "")` of
any input element) has exactly one `Region` row in the final store —
however many elements name it, and whether or not the region existed
before the run (a pre-existing duplicate would have made
`get_or_create` raise and the run fail). -/
theorem c6_region_unique_after_run (s u : Store) (l : List Elem) (e : Elem)
    (h : processLoop s l = .ok u) (he : e ∈ l) :
    (regMatches u (e.region.getD "")).length = 1 := by
  obtain ⟨r, hr⟩ := processLoop_reg_of_mem h he
  rw [hr]
  rfl

theorem c6_region_unique_after_run_witness :
    (regMatches
      { regions := [{ id := 1, name := "Test Region" }],
        countries := [{ name := "Good Country", alpha2Code := "GC", alpha3Code := "GCO",
                        population := 7, regionId := 1, capital := none,
                        top_level_domains_json := none },
                      { name := "Nulland", alpha2Code := "NL", alpha3Code := "NLD",
                        population := 3, regionId := 1, capital := none,
                        top_level_domains_json := none }]
        nextRegionId := 2 }
      "Test Region").length = 1 :=
  c6_region_unique_after_run emptyStore _
    [elemGood, { elemNullPop with population := some (some 3) }] elemGood
    (by decide) (by decide)

theorem hexVal_hexDigitChar {d : Nat} (h : d < 16) :
    hexVal (hexDigitChar d) = some d := by
  interval_cases d <;> rfl

theorem char_toNat_valid (c : Char) : Nat.isValidChar c.toNat := c.valid

theorem char_toNat_lt (c : Char) : c.toNat < 0x110000 := by
  rcases char_toNat_valid c with h | ⟨h1, h2⟩
  · omega
  · exact h2

theorem char_toNat_not_surrogate (c : Char) :
    c.toNat < 0xd800 ∨ 0xdfff < c.toNat := by
  rcases char_toNat_valid c with h | ⟨h1, h2⟩
  · exact Or.inl h
  · exact Or.inr h1

theorem decodeU_hex {n : Nat} (hn : n < 0x10000) (tail : List Char) :
    decodeU (hex4 n ++ tail) =
      if 0xd800 ≤ n ∧ n ≤ 0xdbff then decodeU2 n tail
      else if 0xdc00 ≤ n ∧ n ≤ 0xdfff then none
      else some (Char.ofNat n, tail) := by
  have h1 : n / 4096 % 16 < 16 := Nat.mod_lt _ (by norm_num)
  have h2 : n / 256 % 16 < 16 := Nat.mod_lt _ (by norm_num)
  have h3 : n / 16 % 16 < 16 := Nat.mod_lt _ (by norm_num)
  have h4 : n % 16 < 16 := Nat.mod_lt _ (by norm_num)
  simp only [hex4, List.cons_append, List.nil_append, decodeU,
    hexVal_hexDigitChar h1, hexVal_hexDigitChar h2, hexVal_hexDigitChar h3,
    hexVal_hexDigitChar h4]
  have hE : ((n / 4096 % 16 * 16 + n / 256 % 16) * 16 + n / 16 % 16) * 16 + n % 16 = n := by
    omega
  rw [hE]

theorem decodeU2_hex (uni : Nat) {lo : Nat} (hlo : lo < 0x10000) (tail : List Char) :
    decodeU2 uni ('\\' :: 'u' :: (hex4 lo ++ tail)) =
      if 0xdc00 ≤ lo ∧ lo ≤ 0xdfff then
        some (Char.ofNat (0x10000 + (uni - 0xd800) * 0x400 + (lo - 0xdc00)), tail)
      else none := by
  have h1 : lo / 4096 % 16 < 16 := Nat.mod_lt _ (by norm_num)
  have h2 : lo / 256 % 16 < 16 := Nat.mod_lt _ (by norm_num)
  have h3 : lo / 16 % 16 < 16 := Nat.mod_lt _ (by norm_num)
  have h4 : lo % 16 < 16 := Nat.mod_lt _ (by norm_num)
  simp only [hex4, List.cons_append, List.nil_append, decodeU2,
    hexVal_hexDigitChar h1, hexVal_hexDigitChar h2, hexVal_hexDigitChar h3,
    hexVal_hexDigitChar h4]
  have hE : ((lo / 4096 % 16 * 16 + lo / 256 % 16) * 16 + lo / 16 % 16) * 16 + lo % 16
      = lo := by
    omega
  rw [hE]
  rw [if_pos ⟨trivial, trivial⟩]

theorem parseStringBody_succ_bs (fuel : Nat) (cs : List Char) :
    parseStringBody (fuel + 1) ('\\' :: cs) =
      match decodeEscape cs with
      | none => none
      | some (d, rest) =>
        match parseStringBody fuel rest with
        | none => none
        | some (content, rest2) => some (d :: content, rest2) := by
  rfl

theorem parseStringBody_encChar (c : Char) (tail : List Char) (fuel : Nat) :
    parseStringBody (fuel + 1) (encChar c ++ tail) =
      match parseStringBody fuel tail with
      | none => none
      | some (content, rest) => some (c :: content, rest) := by
  by_cases hbs : c = '\\'
  · subst hbs
    rfl
  by_cases hq : c = '"'
  · subst hq
    rfl
  by_cases hb : c = Char.ofNat 8
  · subst hb
    rfl
  by_cases hf : c = Char.ofNat 12
  · subst hf
    rfl
  by_cases hn : c = '\n'
  · subst hn
    rfl
  by_cases hr : c = '\r'
  · subst hr
    rfl
  by_cases ht : c = '\t'
  · subst ht
    rfl
  by_cases hpr : 0x20 ≤ c.toNat ∧ c.toNat ≤ 0x7e
  · have henc : encChar c ++ tail = c :: tail := by
      simp only [encChar, if_neg hbs, if_neg hq, if_neg hb, if_neg hf, if_neg hn,
        if_neg hr, if_neg ht, if_pos hpr]
      rfl
    rw [henc]
    simp only [parseStringBody]
    rw [if_neg hq, if_neg hbs, if_neg (by omega : ¬ c.toNat < 0x20)]
  by_cases hbmp : c.toNat < 0x10000
  · have henc : encChar c ++ tail = '\\' :: 'u' :: (hex4 c.toNat ++ tail) := by
      simp only [encChar, if_neg hbs, if_neg hq, if_neg hb, if_neg hf, if_neg hn,
        if_neg hr, if_neg ht, if_neg hpr, if_pos hbmp, List.cons_append]
    have hde : decodeEscape ('u' :: (hex4 c.toNat ++ tail)) = some (c, tail) := by
      simp only [decodeEscape]
      rw [if_neg (by decide), if_neg (by decide), if_neg (by decide), if_neg (by decide),
        if_neg (by decide), if_neg (by decide), if_neg (by decide), if_neg (by decide),
        if_pos trivial]
      rw [decodeU_hex hbmp]
      rcases char_toNat_not_surrogate c with hlow | hhigh
      · rw [if_neg (by omega), if_neg (by omega), Char.ofNat_toNat]
      · rw [if_neg (by omega), if_neg (by omega), Char.ofNat_toNat]
    rw [henc, parseStringBody_succ_bs, hde]
  · have hlt := char_toNat_lt c
    have henc : encChar c ++ tail =
        '\\' :: 'u' :: (hex4 (0xd800 + (c.toNat - 0x10000) / 0x400) ++
          ('\\' :: 'u' :: (hex4 (0xdc00 + (c.toNat - 0x10000) % 0x400) ++ tail))) := by
      simp only [encChar, if_neg hbs, if_neg hq, if_neg hb, if_neg hf, if_neg hn,
        if_neg hr, if_neg ht, if_neg hpr, if_neg hbmp, List.cons_append,
        List.append_assoc]
    have hde : decodeEscape ('u' :: (hex4 (0xd800 + (c.toNat - 0x10000) / 0x400) ++
        ('\\' :: 'u' :: (hex4 (0xdc00 + (c.toNat - 0x10000) % 0x400) ++ tail)))) =
        some (c, tail) := by
      simp only [decodeEscape]
      rw [if_neg (by decide), if_neg (by decide), if_neg (by decide), if_neg (by decide),
        if_neg (by decide), if_neg (by decide), if_neg (by decide), if_neg (by decide),
        if_pos trivial]
      rw [decodeU_hex (by omega : 0xd800 + (c.toNat - 0x10000) / 0x400 < 0x10000)]
      rw [if_pos (by omega :
        0xd800 ≤ 0xd800 + (c.toNat - 0x10000) / 0x400 ∧
          0xd800 + (c.toNat - 0x10000) / 0x400 ≤ 0xdbff)]
      rw [decodeU2_hex _ (by omega : 0xdc00 + (c.toNat - 0x10000) % 0x400 < 0x10000)]
      rw [if_pos (by omega :
        0xdc00 ≤ 0xdc00 + (c.toNat - 0x10000) % 0x400 ∧
          0xdc00 + (c.toNat - 0x10000) % 0x400 ≤ 0xdfff)]
      have harith : 0x10000 + (0xd800 + (c.toNat - 0x10000) / 0x400 - 0xd800) * 0x400 +
          (0xdc00 + (c.toNat - 0x10000) % 0x400 - 0xdc00) = c.toNat := by
        omega
      rw [harith, Char.ofNat_toNat]
    rw [henc, parseStringBody_succ_bs, hde]

theorem parseStringBody_encChars (l : List Char) (tail : List Char) :
    ∀ fuel, l.length + 1 ≤ fuel →
      parseStringBody fuel (encChars l ++ '"' :: tail) = some (l, tail) := by
  induction l with
  | nil =>
    intro fuel hfuel
    cases fuel with
    | zero => omega
    | succ f => rfl
  | cons c l' ih =>
    intro fuel hfuel
    cases fuel with
    | zero => omega
    | succ f =>
      have hsplit : encChars (c :: l') ++ '"' :: tail =
          encChar c ++ (encChars l' ++ '"' :: tail) := by
        simp only [encChars, List.append_assoc]
      rw [hsplit, parseStringBody_encChar,
        ih f (by simp only [List.length_cons] at hfuel; omega)]

theorem encChar_length_pos (c : Char) : 1 ≤ (encChar c).length := by
  unfold encChar
  repeat' split
  all_goals simp [hex4]

theorem encChars_length (l : List Char) : l.length ≤ (encChars l).length := by
  induction l with
  | nil => exact Nat.le_refl 0
  | cons c l' ih =>
    have h1 := encChar_length_pos c
    simp only [encChars, List.length_append, List.length_cons]
    omega

theorem string_mk_data (s : String) : String.mk s.data = s := rfl

theorem dumpsItems_cons_head (s : String) (v : List String) :
    ∃ rest, dumpsItems (s :: v) = '"' :: rest := by
  cases v with
  | nil =>
    exact ⟨encChars s.data ++ ['"'], by simp [dumpsItems, encString, List.cons_append]⟩
  | cons s2 v' =>
    refine ⟨encChars s.data ++ ('"' :: ',' :: ' ' :: dumpsItems (s2 :: v')), ?_⟩
    simp [dumpsItems, encString, List.cons_append, List.append_assoc]

theorem parseItems_succ_quote (fuel : Nat) (cs : List Char) :
    parseItems (fuel + 1) ('"' :: cs) =
      match parseStringBody (cs.length + 1) cs with
      | none => none
      | some (content, rest) =>
        match skipWs rest with
        | [] => none
        | d :: rest2 =>
          if d = ']' then some ([String.mk content], rest2)
          else if d = ',' then
            match parseItems fuel (skipWs rest2) with
            | none => none
            | some (items, rest3) => some (String.mk content :: items, rest3)
          else none := by
  rfl

theorem parseItems_dumps (v : List String) :
    ∀ fuel, v ≠ [] → v.length ≤ fuel →
      parseItems fuel (dumpsItems v ++ [']']) = some (v, []) := by
  induction v with
  | nil => exact fun fuel hne _ => absurd rfl hne
  | cons s v' ih =>
    intro fuel hne hfuel
    cases fuel with
    | zero => simp at hfuel
    | succ f =>
      cases v' with
      | nil =>
        have hlist : dumpsItems [s] ++ [']'] =
            '"' :: (encChars s.data ++ '"' :: [']']) := by
          simp [dumpsItems, encString, List.cons_append, List.append_assoc]
        have hbound : s.data.length + 1 ≤ (encChars s.data ++ '"' :: [']']).length + 1 := by
          have := encChars_length s.data
          simp only [List.length_append, List.length_cons]
          omega
        rw [hlist, parseItems_succ_quote,
          parseStringBody_encChars s.data [']'] _ hbound]
        rfl
      | cons s2 v'' =>
        have hlist : dumpsItems (s :: s2 :: v'') ++ [']'] =
            '"' :: (encChars s.data ++ '"' ::
              (',' :: ' ' :: (dumpsItems (s2 :: v'') ++ [']']))) := by
          simp [dumpsItems, encString, List.cons_append, List.append_assoc]
        have hbound : s.data.length + 1 ≤
            (encChars s.data ++ '"' ::
              (',' :: ' ' :: (dumpsItems (s2 :: v'') ++ [']']))).length + 1 := by
          have := encChars_length s.data
          simp only [List.length_append, List.length_cons]
          omega
        rw [hlist, parseItems_succ_quote,
          parseStringBody_encChars s.data _ _ hbound]
        have hsw : skipWs (' ' :: (dumpsItems (s2 :: v'') ++ [']'])) =
            dumpsItems (s2 :: v'') ++ [']'] := by
          obtain ⟨rest0, hh⟩ := dumpsItems_cons_head s2 v''
          rw [hh]
          rfl
        show (match parseItems f (skipWs (' ' :: (dumpsItems (s2 :: v'') ++ [']']))) with
          | none => none
          | some (items, rest3) => some (String.mk s.data :: items, rest3)) =
          some (s :: s2 :: v'', [])
        rw [hsw, ih f (by simp) (by simp only [List.length_cons] at hfuel ⊢; omega)]

theorem encString_length (s : String) :
    (encString s).length = (encChars s.data).length + 2 := by
  simp [encString]

theorem dumpsItems_length (v : List String) : v.length ≤ (dumpsItems v).length := by
  induction v with
  | nil => simp [dumpsItems]
  | cons s v' ih =>
    cases v' with
    | nil =>
      simp only [dumpsItems, List.length_cons, List.length_nil, encString_length]
      omega
    | cons s2 v'' =>
      simp only [dumpsItems, List.length_append, List.length_cons,
        encString_length] at ih ⊢
      omega

theorem loads_dumps (v : List String) : loadsStrList (dumpsList v) = some v := by
  cases v with
  | nil => rfl
  | cons s v' =>
    obtain ⟨rest0, hh⟩ := dumpsItems_cons_head s v'
    have hform : (dumpsList (s :: v')).data = '[' :: '"' :: (rest0 ++ [']']) := by
      simp [dumpsList, hh, List.cons_append]
    unfold loadsStrList
    rw [hform]
    show (match parseItems (('"' :: (rest0 ++ [']'])).length + 1)
            ('"' :: (rest0 ++ [']'])) with
         | none => none
         | some (items, rest2) => if skipWs rest2 = [] then some items else none) =
      some (s :: v')
    have harg : '"' :: (rest0 ++ [']']) = dumpsItems (s :: v') ++ [']'] := by
      rw [hh]
      simp [List.cons_append]
    rw [harg]
    have hb : (s :: v').length ≤ (dumpsItems (s :: v') ++ [']']).length + 1 := by
      have := dumpsItems_length (s :: v')
      simp only [List.length_append, List.length_cons] at this ⊢
      omega
    rw [parseItems_dumps (s :: v') _ (by simp) hb]
    rfl

/-- C10: the `top_level_domains` property round-trips.  For every list
of strings, setting the property and reading it back returns the same
list (the stored text is `json.dumps` of the list, and `json.loads`
inverts it, surrogate-pair escapes included); reading a stored `NULL`
or empty string returns the empty list (the falsy check of the getter);
and setting `None` stores `NULL`. -/
theorem c10_tld_roundtrip :
    (∀ v : List String, topLevelDomainsGet (topLevelDomainsSet (some v)) = some v) ∧
    topLevelDomainsGet none = some [] ∧
    topLevelDomainsGet (some "") = some [] ∧
    topLevelDomainsSet none = none := by
  refine ⟨?_, rfl, rfl, rfl⟩
  intro v
  have hne : dumpsList v ≠ "" := by
    intro hcontra
    have hd := congrArg String.data hcontra
    simp [dumpsList] at hd
  show (if dumpsList v = "" then some [] else loadsStrList (dumpsList v)) = some v
  rw [if_neg hne, loads_dumps]
